import Mathlib

/-!
Shallow embedding of the rootspace matrix core
(src/rootspace/_index_handling.c, src/rootspace/_matrix.c,
src/rootspace/_matrix_container.h).

Modelling conventions:
 -  `Py_ssize_t` values are modelled as `Int` (no overflow concerns arise at
    the sizes the claims quantify over).
 -  `MatrixDataType` (C `float`) is modelled as `ℚ`; the claims under
    verification do not depend on float rounding, only on exact arithmetic,
    zero tests and data movement.
 -  A `MatrixContainer` is a flat buffer; the reference-counted sharing of
    containers between a `Matrix` and its transposed views is modelled by a
    heap (`Heap`, a list of buffers) and a `container` index stored in each
    `Matrix`, mirroring the `container` pointer of the C struct.
 -  CPython error returns (`NULL` plus an exception) are modelled with
    `Except Err`; `Matrix_SetItem`, which mutates in place and can fail after
    having written (returning `-1`), is modelled as returning the final heap
    together with an optional error.
 -  Python objects that are dispatched on by runtime type checks
    (`PyLong_Check` / `PyFloat_Check` / `PyTuple_Check` / `PySlice_Check` /
    `PySequence_Check` / `Matrix_Check`) are modelled by small inductive
    types with one constructor per runtime type the C code distinguishes,
    plus a catch-all constructor for every other runtime type.
-/

namespace RS

/-- The Python exception kinds raised by the embedded code. `Py_NotImplemented`
returns are folded in as `notImplemented`. -/
inductive Err where
  | indexError
  | typeError
  | valueError
  | zeroDivisionError
  | notImplemented
deriving Repr, DecidableEq

/-- Embeds `linearize_scalar_indices` (_index_handling.c lines 3-12):
bounds-checked dual-mode row-major addressing. -/
def linearize_scalar_indices (N M : Int) (transposed : Bool) (i j : Int) :
    Except Err Int :=
  if transposed = false ∧ 0 ≤ i ∧ i < N ∧ 0 ≤ j ∧ j < M then
    .ok (i * M + j)
  else if transposed = true ∧ 0 ≤ j ∧ j < N ∧ 0 ≤ i ∧ i < M then
    .ok (j * M + i)
  else
    .error .indexError

/-- The raw `Py_ssize_t` return convention of `linearize_scalar_indices`
(`-1` signals the error); used where the C code consumes the return value
without checking it (`Matrix_MatMultiply`). -/
def linearize_scalar_raw (N M : Int) (transposed : Bool) (i j : Int) : Int :=
  match linearize_scalar_indices N M transposed i j with
  | .ok v => v
  | .error _ => -1

/-- A Python slice object: each of start, stop, step is either an integer or
`None`. -/
structure Slice where
  start : Option Int
  stop  : Option Int
  step  : Option Int
deriving Repr, DecidableEq

/-- `slice(None, None, None)`, as produced by `PySlice_New(NULL, NULL, NULL)`. -/
def sliceFull : Slice := ⟨none, none, none⟩

/-- Index adjustment of CPython `PySlice_AdjustIndices` for one endpoint:
negative values count from the end, then the value is clamped to the valid
range for the sign of the step. -/
def sliceAdjust (length step v : Int) : Int :=
  let v' := if v < 0 then v + length else v
  if v' < 0 then (if step < 0 then -1 else 0)
  else if length ≤ v' then (if step < 0 then length - 1 else length)
  else v'

/-- Embeds CPython `PySlice_GetIndicesEx` (`PySlice_Unpack` followed by
`PySlice_AdjustIndices`): resolves a slice against an axis extent, returning
`(start, step, sliceLength)`. A zero step is a `ValueError`; out-of-range
endpoints are clamped, never an error. The `PY_SSIZE_T_MAX` / `PY_SSIZE_T_MIN`
sentinels CPython substitutes for `None` endpoints are expressed directly
through the clamping they are guaranteed to undergo. -/
def sliceGetIndicesEx (s : Slice) (length : Int) : Except Err (Int × Int × Int) :=
  let step := s.step.getD 1
  if step = 0 then .error .valueError
  else
    let start := match s.start with
      | some v => sliceAdjust length step v
      | none => if step < 0 then length - 1 else 0
    let stop := match s.stop with
      | some v => sliceAdjust length step v
      | none => if step < 0 then -1 else length
    let len := if step < 0 then
        (if stop < start then (start - stop - 1) / (-step) + 1 else 0)
      else
        (if start < stop then (stop - start - 1) / step + 1 else 0)
    .ok (start, step, len)

/-- An element of a tuple-of-indices axis selector. The C code accepts
arbitrary objects inside the tuple and checks `PyLong_Check` per element. -/
inductive TupElem where
  | tInt (n : Int)
  | tOther
deriving Repr, DecidableEq

/-- A per-axis index descriptor as dispatched on by `get_sub_shape` and
`linearize_indices`: `PyLong`, `PyTuple`, `PySlice`, or any other type. -/
inductive Ax where
  | aInt (n : Int)
  | aTuple (es : List TupElem)
  | aSlice (s : Slice)
  | aOther
deriving Repr, DecidableEq

/-- The raw key object handed to `complete_indices` / `__getitem__` /
`__setitem__`: an integer, a slice, a tuple of axis descriptors, or any
other object. -/
inductive Key where
  | kInt (n : Int)
  | kSlice (s : Slice)
  | kTuple (es : List Ax)
  | kOther
deriving Repr, DecidableEq

/-- Left-to-right fail-fast effectful map over a list in `Except`, the
modelling of the C `for` loops that bail out on the first failing element. -/
def exceptMap (f : α → Except Err β) : List α → Except Err (List β)
  | [] => .ok []
  | x :: xs =>
    match f x with
    | .error e => .error e
    | .ok y =>
      match exceptMap f xs with
      | .error e => .error e
      | .ok ys => .ok (y :: ys)

/-- Embeds `li_int_int` (_index_handling.c lines 14-20). -/
def li_int_int (N M : Int) (t : Bool) (i j : Int) : Except Err (List Int) :=
  match linearize_scalar_indices N M t i j with
  | .error e => .error e
  | .ok lin_idx => .ok [lin_idx]

/-- Embeds `li_int_tuple` (_index_handling.c lines 22-47). -/
def li_int_tuple (N M : Int) (t : Bool) (i : Int) (js : List TupElem) :
    Except Err (List Int) :=
  exceptMap (fun je => match je with
    | .tInt jv => linearize_scalar_indices N M t i jv
    | .tOther => .error .typeError) js

/-- Embeds `li_int_slice` (_index_handling.c lines 49-79). -/
def li_int_slice (N M : Int) (t : Bool) (i : Int) (s : Slice) :
    Except Err (List Int) :=
  let max_j := if t then N else M
  match sliceGetIndicesEx s max_j with
  | .error e => .error e
  | .ok (start, step, len) =>
    exceptMap (fun (r_idx : Nat) =>
        linearize_scalar_indices N M t i ((r_idx : Int) * step + start))
      (List.range len.toNat)

/-- Embeds `li_tuple_int` (_index_handling.c lines 81-106). -/
def li_tuple_int (N M : Int) (t : Bool) (iEs : List TupElem) (j : Int) :
    Except Err (List Int) :=
  exceptMap (fun ie => match ie with
    | .tInt iv => linearize_scalar_indices N M t iv j
    | .tOther => .error .typeError) iEs

/-- Embeds `li_tuple_tuple` (_index_handling.c lines 108-151). The C code
fills a tuple of size `i_len * j_len` at position
`linearize_scalar_indices(i_len, j_len, 0, i_idx, j_idx) = i_idx * j_len + j_idx`,
which is exactly the row-major flattening of the nested loops. -/
def li_tuple_tuple (N M : Int) (t : Bool) (iEs jEs : List TupElem) :
    Except Err (List Int) :=
  match exceptMap (fun ie => match ie with
    | .tInt iv =>
        exceptMap (fun je => match je with
          | .tInt jv => linearize_scalar_indices N M t iv jv
          | .tOther => .error .typeError) jEs
    | .tOther => .error .typeError) iEs with
  | .error e => .error e
  | .ok rows => .ok rows.flatten

/-- Embeds `li_tuple_slice` (_index_handling.c lines 153-200); row-major fill
as in `li_tuple_tuple`. -/
def li_tuple_slice (N M : Int) (t : Bool) (iEs : List TupElem) (s : Slice) :
    Except Err (List Int) :=
  let max_j := if t then N else M
  match sliceGetIndicesEx s max_j with
  | .error e => .error e
  | .ok (j_start, j_step, j_len) =>
    match exceptMap (fun ie => match ie with
      | .tInt iv =>
          exceptMap (fun (j_idx : Nat) =>
              linearize_scalar_indices N M t iv ((j_idx : Int) * j_step + j_start))
            (List.range j_len.toNat)
      | .tOther => .error .typeError) iEs with
    | .error e => .error e
    | .ok rows => .ok rows.flatten

/-- Embeds `li_slice_int` (_index_handling.c lines 202-233). -/
def li_slice_int (N M : Int) (t : Bool) (s : Slice) (j : Int) :
    Except Err (List Int) :=
  let max_i := if t then M else N
  match sliceGetIndicesEx s max_i with
  | .error e => .error e
  | .ok (start, step, len) =>
    exceptMap (fun (r_idx : Nat) =>
        linearize_scalar_indices N M t ((r_idx : Int) * step + start) j)
      (List.range len.toNat)

/-- Embeds `li_slice_tuple` (_index_handling.c lines 235-283); row-major fill
as in `li_tuple_tuple`. -/
def li_slice_tuple (N M : Int) (t : Bool) (s : Slice) (jEs : List TupElem) :
    Except Err (List Int) :=
  let max_i := if t then M else N
  match sliceGetIndicesEx s max_i with
  | .error e => .error e
  | .ok (i_start, i_step, i_len) =>
    match exceptMap (fun (i_idx : Nat) =>
      exceptMap (fun je => match je with
        | .tInt jv =>
            linearize_scalar_indices N M t ((i_idx : Int) * i_step + i_start) jv
        | .tOther => .error .typeError) jEs)
      (List.range i_len.toNat) with
    | .error e => .error e
    | .ok rows => .ok rows.flatten

/-- Embeds `li_slice_slice` (_index_handling.c lines 285-335); row-major fill
as in `li_tuple_tuple`. -/
def li_slice_slice (N M : Int) (t : Bool) (sI sJ : Slice) :
    Except Err (List Int) :=
  let max_i := if t then M else N
  let max_j := if t then N else M
  match sliceGetIndicesEx sI max_i with
  | .error e => .error e
  | .ok (i_start, i_step, i_len) =>
    match sliceGetIndicesEx sJ max_j with
    | .error e => .error e
    | .ok (j_start, j_step, j_len) =>
      match exceptMap (fun (i_idx : Nat) =>
        exceptMap (fun (j_idx : Nat) =>
            linearize_scalar_indices N M t
              ((i_idx : Int) * i_step + i_start) ((j_idx : Int) * j_step + j_start))
          (List.range j_len.toNat))
        (List.range i_len.toNat) with
      | .error e => .error e
      | .ok rows => .ok rows.flatten

/-- Embeds `get_sub_shape` (_index_handling.c lines 337-430) on an
already-two-element index tuple (the tuple-ness and length-2 checks of the C
entry point are captured by the `Ax × Ax` argument type; `complete_indices`
below performs the length normalisation and errors). -/
def get_sub_shape (N M : Int) (transposed : Bool) (indices : Ax × Ax) :
    Except Err (Int × Int) :=
  let max_i := if transposed then M else N
  let max_j := if transposed then N else M
  match indices with
  | (.aInt _, .aInt _) => .ok (1, 1)
  | (.aInt _, .aTuple jEs) => .ok (1, (jEs.length : Int))
  | (.aInt _, .aSlice s) =>
      match sliceGetIndicesEx s max_j with
      | .error e => .error e
      | .ok (_, _, len) => .ok (1, len)
  | (.aTuple iEs, .aInt _) => .ok ((iEs.length : Int), 1)
  | (.aTuple iEs, .aTuple jEs) => .ok ((iEs.length : Int), (jEs.length : Int))
  | (.aTuple iEs, .aSlice s) =>
      match sliceGetIndicesEx s max_j with
      | .error e => .error e
      | .ok (_, _, len) => .ok ((iEs.length : Int), len)
  | (.aSlice s, .aInt _) =>
      match sliceGetIndicesEx s max_i with
      | .error e => .error e
      | .ok (_, _, len) => .ok (len, 1)
  | (.aSlice s, .aTuple jEs) =>
      match sliceGetIndicesEx s max_i with
      | .error e => .error e
      | .ok (_, _, len) => .ok (len, (jEs.length : Int))
  | (.aSlice sI, .aSlice sJ) =>
      match sliceGetIndicesEx sI max_i with
      | .error e => .error e
      | .ok (_, _, len_i) =>
        match sliceGetIndicesEx sJ max_j with
        | .error e => .error e
        | .ok (_, _, len_j) => .ok (len_i, len_j)
  | (_, _) => .error .typeError

/-- Embeds `linearize_indices` (_index_handling.c lines 432-476) on an
already-two-element index tuple. -/
def linearize_indices (N M : Int) (transposed : Bool) (indices : Ax × Ax) :
    Except Err (List Int) :=
  match indices with
  | (.aInt i, .aInt j) => li_int_int N M transposed i j
  | (.aInt i, .aTuple jEs) => li_int_tuple N M transposed i jEs
  | (.aInt i, .aSlice s) => li_int_slice N M transposed i s
  | (.aTuple iEs, .aInt j) => li_tuple_int N M transposed iEs j
  | (.aTuple iEs, .aTuple jEs) => li_tuple_tuple N M transposed iEs jEs
  | (.aTuple iEs, .aSlice s) => li_tuple_slice N M transposed iEs s
  | (.aSlice s, .aInt j) => li_slice_int N M transposed s j
  | (.aSlice s, .aTuple jEs) => li_slice_tuple N M transposed s jEs
  | (.aSlice sI, .aSlice sJ) => li_slice_slice N M transposed sI sJ
  | (_, _) => .error .typeError

/-- Embeds `complete_indices` (_index_handling.c lines 478-527): a bare
integer or slice (or a one-element tuple) selects along axis 0 and is paired
with a full-range slice for axis 1; a two-element tuple passes through; any
other tuple length is a `ValueError`, any other type a `TypeError`. -/
def complete_indices : Key → Except Err (Ax × Ax)
  | .kInt n => .ok (.aInt n, .aSlice sliceFull)
  | .kSlice s => .ok (.aSlice s, .aSlice sliceFull)
  | .kTuple [a] => .ok (a, .aSlice sliceFull)
  | .kTuple [a, b] => .ok (a, b)
  | .kTuple _ => .error .valueError
  | .kOther => .error .typeError

/-- Embeds `select_all` (_index_handling.c lines 529-553). -/
def select_all (N M : Int) (transposed : Bool) : Except Err (List Int) :=
  linearize_indices N M transposed (.aSlice sliceFull, .aSlice sliceFull)

/-- A buffer heap: the reference-counted `MatrixContainer` objects alive at a
point in time. A `Matrix` refers to its container by index. -/
abbrev Heap := List (List ℚ)

/-- The `Matrix` struct of _matrix.h: a container reference, the physical
(untransposed) shape `N × M`, and the transposition flag. -/
structure Matrix where
  container : Nat
  N : Int
  M : Int
  transposed : Bool
deriving Repr, DecidableEq

/-- `Matrix_DATA`: the buffer the matrix's container reference points at. -/
def Matrix_DATA (heap : Heap) (m : Matrix) : List ℚ :=
  heap.getD m.container []

/-- `Matrix_SHAPE_I`: the logical row count (_matrix.h line 33). -/
def Matrix_SHAPE_I (m : Matrix) : Int :=
  if m.transposed then m.M else m.N

/-- `Matrix_SHAPE_J`: the logical column count (_matrix.h line 34). -/
def Matrix_SHAPE_J (m : Matrix) : Int :=
  if m.transposed then m.N else m.M

/-- A single element store through a container reference:
`container->data[off] = q`. -/
def writeBuf (heap : Heap) (c : Nat) (off : Int) (q : ℚ) : Heap :=
  heap.set c ((heap.getD c []).set off.toNat q)

/-- Embeds `MatrixContainer_NewInternal` (_matrix_container.h): a `ValueError`
unless the requested length is at least 1, otherwise a fresh zero-initialised
buffer. -/
def MatrixContainer_NewInternal (length : Int) : Except Err (List ℚ) :=
  if length ≤ 0 then .error .valueError
  else .ok (List.replicate length.toNat 0)

/-- An element of a Python flat sequence as dispatched on by the matrix code:
`PyLong`, `PyFloat`, or any other type. -/
inductive SeqElem where
  | sInt (z : Int)
  | sFloat (q : ℚ)
  | sOther
deriving Repr, DecidableEq

/-- Whether `PyLong_Check(e) || PyFloat_Check(e)` holds. -/
def SeqElem.isNumeric : SeqElem → Bool
  | .sInt _ => true
  | .sFloat _ => true
  | .sOther => false

/-- The numeric value stored for a sequence element (the C code narrows both
`long` and `double` values to `MatrixDataType`). -/
def SeqElem.toQ : SeqElem → ℚ
  | .sInt z => (z : ℚ)
  | .sFloat q => q
  | .sOther => 0

/-- The `data` argument accepted by the Matrix constructor: `None` is the
`Option.none` case; otherwise an integer, a float, a flat sequence, or any
other object. -/
inductive FillData where
  | fInt (z : Int)
  | fFloat (q : ℚ)
  | fSeq (xs : List SeqElem)
  | fOther
deriving Repr, DecidableEq

/-- Embeds `Matrix_New` (_matrix.c lines 51-108) together with the container
allocation of `Matrix_NewInternal`: shape guard (`N == 0 || M == 0` is a
`ValueError`), container allocation (its own `ValueError` when `N * M <= 0`),
then fill. A sequence fill of the wrong length is a `ValueError`; a
non-numeric sequence element is a `TypeError` (the C loop discards the
half-filled fresh container in that case, so only the all-numeric result is
observable). On success the fresh container is appended to the heap. -/
def Matrix_New (heap : Heap) (N M : Int) (data : Option FillData)
    (transposed : Bool) : Except Err (Heap × Matrix) :=
  if N = 0 ∨ M = 0 then .error .valueError
  else
    match MatrixContainer_NewInternal (N * M) with
    | .error e => .error e
    | .ok buf0 =>
      let self : Matrix := ⟨heap.length, N, M, transposed⟩
      match data with
      | none => .ok (heap ++ [buf0], self)
      | some (.fInt z) => .ok (heap ++ [List.replicate buf0.length ((z : ℚ))], self)
      | some (.fFloat q) => .ok (heap ++ [List.replicate buf0.length q], self)
      | some (.fSeq xs) =>
          if xs.length ≠ buf0.length then .error .valueError
          else if xs.all SeqElem.isNumeric then
            .ok (heap ++ [xs.map SeqElem.toQ], self)
          else .error .typeError
      | some .fOther => .error .typeError

/-- The result of `Matrix_GetItem`: a bare Python float or a sub-matrix. -/
inductive GetResult where
  | scalar (q : ℚ)
  | sub (m : Matrix)
deriving Repr, DecidableEq

/-- Embeds `Matrix_GetItem` (_matrix.c lines 794-854): complete the key,
resolve the sub-shape and the linear indices; more than one selected offset
yields a fresh untransposed sub-matrix copied element by element
(`data[i] = self->data[sub_idx[i]]` for `i < sub_N * sub_M`), exactly one
yields a bare scalar, zero is a `ValueError`. -/
def Matrix_GetItem (heap : Heap) (self : Matrix) (key : Key) :
    Except Err (Heap × GetResult) :=
  match complete_indices key with
  | .error e => .error e
  | .ok idx =>
  match get_sub_shape self.N self.M self.transposed idx with
  | .error e => .error e
  | .ok (sub_N, sub_M) =>
  match linearize_indices self.N self.M self.transposed idx with
  | .error e => .error e
  | .ok sub_idx =>
  if 1 < sub_idx.length then
    match MatrixContainer_NewInternal (sub_N * sub_M) with
    | .error e => .error e
    | .ok buf0 =>
      let buf := (List.range buf0.length).map
        (fun i => (Matrix_DATA heap self).getD ((sub_idx.getD i 0).toNat) 0)
      .ok (heap ++ [buf], .sub ⟨heap.length, sub_N, sub_M, false⟩)
  else if sub_idx.length = 1 then
    .ok (heap, .scalar ((Matrix_DATA heap self).getD ((sub_idx.getD 0 0).toNat) 0))
  else
    .error .valueError

/-- The `value` argument accepted by `Matrix_SetItem`, in the order the C code
dispatches: a Matrix, a flat sequence, an integer, a float, or any other
object. -/
inductive SetValue where
  | vMat (m : Matrix)
  | vSeq (xs : List SeqElem)
  | vInt (z : Int)
  | vFloat (q : ℚ)
  | vOther
deriving Repr, DecidableEq

/-- One iteration of the sequence-value write loop of `Matrix_SetItem`
(_matrix.c lines 908-925): once an error has been recorded the remaining
iterations are skipped (the C loop has returned); otherwise element `i` of
the sequence is type-checked and either the `TypeError` is recorded — with
the writes already made left in place — or the element is written through
selection offset `i`. -/
def seqWriteStep (self : Matrix) (sub_idx : List Int) (xs : List SeqElem)
    (acc : Heap × Option Err) (i : Nat) : Heap × Option Err :=
  match acc.2 with
  | some _ => acc
  | none =>
    match xs.getD i .sOther with
    | .sOther => (acc.1, some .typeError)
    | e => (writeBuf acc.1 self.container (sub_idx.getD i 0) e.toQ, none)

/-- Embeds `Matrix_SetItem` (_matrix.c lines 856-949). The function mutates
`self`'s container in place, so it returns the heap after the call together
with the error raised, if any. A Matrix value must match the resolved
sub-shape logically and is read through its own `select_all` order; a
sequence value must have exactly the selection's length, and each element is
type-checked inside the write loop (an error there leaves the writes already
made in place); integer and float values broadcast. -/
def Matrix_SetItem (heap : Heap) (self : Matrix) (key : Key) (value : SetValue) :
    Heap × Option Err :=
  match complete_indices key with
  | .error e => (heap, some e)
  | .ok idx =>
  match get_sub_shape self.N self.M self.transposed idx with
  | .error e => (heap, some e)
  | .ok (sub_N, sub_M) =>
  match linearize_indices self.N self.M self.transposed idx with
  | .error e => (heap, some e)
  | .ok sub_idx =>
  match value with
  | .vMat value_obj =>
      if Matrix_SHAPE_I value_obj ≠ sub_N ∨ Matrix_SHAPE_J value_obj ≠ sub_M then
        (heap, some .valueError)
      else
        match select_all value_obj.N value_obj.M value_obj.transposed with
        | .error e => (heap, some e)
        | .ok value_idx =>
            (((List.range (sub_N * sub_M).toNat)).foldl
              (fun h i =>
                writeBuf h self.container (sub_idx.getD i 0)
                  ((Matrix_DATA h value_obj).getD ((value_idx.getD i 0).toNat) 0))
              heap, none)
  | .vSeq xs =>
      if (xs.length : Int) ≠ sub_N * sub_M then (heap, some .valueError)
      else
        (List.range (sub_N * sub_M).toNat).foldl (seqWriteStep self sub_idx xs)
          (heap, none)
  | .vInt z =>
      ((List.range (sub_N * sub_M).toNat).foldl
        (fun h i => writeBuf h self.container (sub_idx.getD i 0) ((z : ℚ))) heap,
       none)
  | .vFloat q =>
      ((List.range (sub_N * sub_M).toNat).foldl
        (fun h i => writeBuf h self.container (sub_idx.getD i 0) q) heap,
       none)
  | .vOther => (heap, some .typeError)

/-- Embeds the Matrix-versus-Matrix branch of `Matrix_LessThan`
(_matrix.c lines 115-216): equal logical shapes are required (`ValueError`
otherwise); the result is the conjunction of the elementwise comparison over
the two operands' own `select_all` orders. -/
def Matrix_LessThan (heap : Heap) (fm sm : Matrix) : Except Err Bool :=
  if Matrix_SHAPE_I fm = Matrix_SHAPE_I sm ∧ Matrix_SHAPE_J fm = Matrix_SHAPE_J sm then do
    let flinidx ← select_all fm.N fm.M fm.transposed
    let slinidx ← select_all sm.N sm.M sm.transposed
    return (List.range flinidx.length).all (fun i =>
      decide ((Matrix_DATA heap fm).getD ((flinidx.getD i 0).toNat) 0 <
              (Matrix_DATA heap sm).getD ((slinidx.getD i 0).toNat) 0))
  else .error .valueError

/-- Embeds the Matrix-versus-Matrix branch of `Matrix_LessOrEqual`
(_matrix.c lines 218-319). -/
def Matrix_LessOrEqual (heap : Heap) (fm sm : Matrix) : Except Err Bool :=
  if Matrix_SHAPE_I fm = Matrix_SHAPE_I sm ∧ Matrix_SHAPE_J fm = Matrix_SHAPE_J sm then do
    let flinidx ← select_all fm.N fm.M fm.transposed
    let slinidx ← select_all sm.N sm.M sm.transposed
    return (List.range flinidx.length).all (fun i =>
      decide ((Matrix_DATA heap fm).getD ((flinidx.getD i 0).toNat) 0 ≤
              (Matrix_DATA heap sm).getD ((slinidx.getD i 0).toNat) 0))
  else .error .valueError

/-- Embeds the Matrix-versus-Matrix branch of `Matrix_Equal`
(_matrix.c lines 321-421): a logical shape mismatch yields `False` rather
than an error. -/
def Matrix_Equal (heap : Heap) (fm sm : Matrix) : Except Err Bool :=
  if Matrix_SHAPE_I fm = Matrix_SHAPE_I sm ∧ Matrix_SHAPE_J fm = Matrix_SHAPE_J sm then do
    let flinidx ← select_all fm.N fm.M fm.transposed
    let slinidx ← select_all sm.N sm.M sm.transposed
    return (List.range flinidx.length).all (fun i =>
      decide ((Matrix_DATA heap fm).getD ((flinidx.getD i 0).toNat) 0 =
              (Matrix_DATA heap sm).getD ((slinidx.getD i 0).toNat) 0))
  else .ok false

/-- Embeds the Matrix-versus-Matrix branch of `Matrix_NotEqual`
(_matrix.c lines 423-523): a logical shape mismatch yields `True` rather
than an error. -/
def Matrix_NotEqual (heap : Heap) (fm sm : Matrix) : Except Err Bool :=
  if Matrix_SHAPE_I fm = Matrix_SHAPE_I sm ∧ Matrix_SHAPE_J fm = Matrix_SHAPE_J sm then do
    let flinidx ← select_all fm.N fm.M fm.transposed
    let slinidx ← select_all sm.N sm.M sm.transposed
    return (List.range flinidx.length).any (fun i =>
      decide (¬ ((Matrix_DATA heap fm).getD ((flinidx.getD i 0).toNat) 0 =
                 (Matrix_DATA heap sm).getD ((slinidx.getD i 0).toNat) 0)))
  else .ok true

/-- Embeds the Matrix-versus-Matrix branch of `Matrix_GreaterOrEqual`
(_matrix.c lines 525-626). -/
def Matrix_GreaterOrEqual (heap : Heap) (fm sm : Matrix) : Except Err Bool :=
  if Matrix_SHAPE_I fm = Matrix_SHAPE_I sm ∧ Matrix_SHAPE_J fm = Matrix_SHAPE_J sm then do
    let flinidx ← select_all fm.N fm.M fm.transposed
    let slinidx ← select_all sm.N sm.M sm.transposed
    return (List.range flinidx.length).all (fun i =>
      decide ((Matrix_DATA heap sm).getD ((slinidx.getD i 0).toNat) 0 ≤
              (Matrix_DATA heap fm).getD ((flinidx.getD i 0).toNat) 0))
  else .error .valueError

/-- Embeds the Matrix-versus-Matrix branch of `Matrix_GreaterThan`
(_matrix.c lines 628-729). -/
def Matrix_GreaterThan (heap : Heap) (fm sm : Matrix) : Except Err Bool :=
  if Matrix_SHAPE_I fm = Matrix_SHAPE_I sm ∧ Matrix_SHAPE_J fm = Matrix_SHAPE_J sm then do
    let flinidx ← select_all fm.N fm.M fm.transposed
    let slinidx ← select_all sm.N sm.M sm.transposed
    return (List.range flinidx.length).all (fun i =>
      decide ((Matrix_DATA heap sm).getD ((slinidx.getD i 0).toNat) 0 <
              (Matrix_DATA heap fm).getD ((flinidx.getD i 0).toNat) 0))
  else .error .valueError

/-- A numeric operand of the binary arithmetic slots, in the order the C code
dispatches: a Matrix, a `PyLong`, a `PyFloat`, or any other object. -/
inductive NumOperand where
  | oMat (m : Matrix)
  | oInt (z : Int)
  | oFloat (q : ℚ)
  | oOther
deriving Repr, DecidableEq

/-- Embeds `Matrix_TrueDivide` (_matrix.c lines 1277-1401).
Matrix / Matrix pairs elements over the operands' `select_all` orders,
raising `ZeroDivisionError` on the first zero divisor element (the partially
written fresh result container is discarded). Matrix / scalar checks the
scalar divisor for zero. scalar / Matrix checks the scalar DIVIDEND for zero
and then divides by the matrix elements unchecked (C float division; a zero
matrix element would produce an IEEE infinity there — this model uses ℚ, in
which the claims exercised concern only the zero-dividend guard). -/
def Matrix_TrueDivide (heap : Heap) (first second : NumOperand) :
    Except Err (Heap × NumOperand) :=
  match first, second with
  | .oMat fm, .oMat sm =>
    if Matrix_SHAPE_I fm = Matrix_SHAPE_I sm ∧ Matrix_SHAPE_J fm = Matrix_SHAPE_J sm then do
      let flinidx ← select_all fm.N fm.M fm.transposed
      let slinidx ← select_all sm.N sm.M sm.transposed
      let buf0 ← MatrixContainer_NewInternal (fm.N * fm.M)
      let buf ← (List.range flinidx.length).foldlM
        (fun (b : List ℚ) i =>
          let f_off := flinidx.getD i 0
          let s_value := (Matrix_DATA heap sm).getD ((slinidx.getD i 0).toNat) 0
          if s_value ≠ 0 then
            .ok (b.set f_off.toNat
              ((Matrix_DATA heap fm).getD f_off.toNat 0 / s_value))
          else (.error .zeroDivisionError : Except Err (List ℚ)))
        buf0
      return (heap ++ [buf], .oMat ⟨heap.length, fm.N, fm.M, fm.transposed⟩)
    else .error .valueError
  | .oMat fm, .oInt z =>
      match MatrixContainer_NewInternal (fm.N * fm.M) with
      | .error e => .error e
      | .ok buf0 =>
        if (z : ℚ) = 0 then .error .zeroDivisionError
        else .ok (heap ++
            [(List.range buf0.length).map
              (fun i => (Matrix_DATA heap fm).getD i 0 / (z : ℚ))],
          .oMat ⟨heap.length, fm.N, fm.M, fm.transposed⟩)
  | .oMat fm, .oFloat q =>
      match MatrixContainer_NewInternal (fm.N * fm.M) with
      | .error e => .error e
      | .ok buf0 =>
        if q = 0 then .error .zeroDivisionError
        else .ok (heap ++
            [(List.range buf0.length).map
              (fun i => (Matrix_DATA heap fm).getD i 0 / q)],
          .oMat ⟨heap.length, fm.N, fm.M, fm.transposed⟩)
  | .oInt z, .oMat sm =>
      match MatrixContainer_NewInternal (sm.N * sm.M) with
      | .error e => .error e
      | .ok buf0 =>
        if (z : ℚ) = 0 then .error .zeroDivisionError
        else .ok (heap ++
            [(List.range buf0.length).map
              (fun i => (z : ℚ) / (Matrix_DATA heap sm).getD i 0)],
          .oMat ⟨heap.length, sm.N, sm.M, sm.transposed⟩)
  | .oFloat q, .oMat sm =>
      match MatrixContainer_NewInternal (sm.N * sm.M) with
      | .error e => .error e
      | .ok buf0 =>
        if q = 0 then .error .zeroDivisionError
        else .ok (heap ++
            [(List.range buf0.length).map
              (fun i => q / (Matrix_DATA heap sm).getD i 0)],
          .oMat ⟨heap.length, sm.N, sm.M, sm.transposed⟩)
  | _, _ => .error .notImplemented

/-- Embeds `Matrix_MatMultiply` (_matrix.c lines 1403-1445): the logical
inner dimensions must agree (`ValueError` otherwise); a logically 1×K times
K×1 product returns a bare float accumulated directly over the two physical
buffers; otherwise a fresh untransposed N×M result is filled at offset
`linearize_scalar_indices(N, M, 0, i, j) = i * M + j` (row-major), each entry
accumulated through both operands' transposition-aware scalar linearization
(whose raw unchecked return value the C code indexes with). -/
def Matrix_MatMultiply (heap : Heap) (first second : NumOperand) :
    Except Err (Heap × NumOperand) :=
  match first, second with
  | .oMat fm, .oMat sm =>
    if Matrix_SHAPE_J fm = Matrix_SHAPE_I sm then
      let N := Matrix_SHAPE_I fm
      let K := Matrix_SHAPE_J fm
      let M := Matrix_SHAPE_J sm
      if N = 1 ∧ M = 1 then
        .ok (heap, .oFloat ((List.range K.toNat).foldl
          (fun acc k =>
            acc + (Matrix_DATA heap fm).getD k 0 * (Matrix_DATA heap sm).getD k 0)
          0))
      else
        match MatrixContainer_NewInternal (N * M) with
        | .error e => .error e
        | .ok _ =>
          let buf := ((List.range N.toNat).map (fun (i : Nat) =>
            (List.range M.toNat).map (fun (j : Nat) =>
              (List.range K.toNat).foldl
                (fun acc (k : Nat) =>
                  acc + (Matrix_DATA heap fm).getD
                          (linearize_scalar_raw fm.N fm.M fm.transposed
                            (i : Int) (k : Int)).toNat 0 *
                        (Matrix_DATA heap sm).getD
                          (linearize_scalar_raw sm.N sm.M sm.transposed
                            (k : Int) (j : Int)).toNat 0)
                0))).flatten
          .ok (heap ++ [buf], .oMat ⟨heap.length, N, M, false⟩)
    else .error .valueError
  | _, _ => .error .notImplemented

/-- Embeds `Matrix_GetTransposed` (_matrix.c lines 1560-1567): a shallow copy
sharing the container, with the transposition flag flipped. -/
def Matrix_GetTransposed (self : Matrix) : Matrix :=
  ⟨self.container, self.N, self.M, !self.transposed⟩

/-- An element of a matrix at a logical position, read the way the matrix
code reads it: through the transposition-aware scalar linearization of the
physical buffer. -/
def logicalGet (heap : Heap) (m : Matrix) (i j : Int) : ℚ :=
  (Matrix_DATA heap m).getD
    (linearize_scalar_raw m.N m.M m.transposed i j).toNat 0


/-! ### General lemmas about the embedding -/

theorem lin_false_eval (N M i j : Int) :
    linearize_scalar_indices N M false i j =
      if 0 ≤ i ∧ i < N ∧ 0 ≤ j ∧ j < M then .ok (i * M + j)
      else .error .indexError := by
  simp [linearize_scalar_indices]

theorem lin_true_eval (N M i j : Int) :
    linearize_scalar_indices N M true i j =
      if 0 ≤ j ∧ j < N ∧ 0 ≤ i ∧ i < M then .ok (j * M + i)
      else .error .indexError := by
  simp [linearize_scalar_indices]

theorem exceptMap_ok_length {α β : Type} {f : α → Except Err β} :
    ∀ {xs : List α} {l : List β}, exceptMap f xs = .ok l → l.length = xs.length := by
  intro xs
  induction xs with
  | nil => intro l h; simp only [exceptMap] at h; cases h; rfl
  | cons x xs ih =>
    intro l h
    simp only [exceptMap] at h
    cases hfx : f x with
    | error e => rw [hfx] at h; cases h
    | ok y =>
      rw [hfx] at h
      cases hrest : exceptMap f xs with
      | error e => rw [hrest] at h; cases h
      | ok ys =>
        rw [hrest] at h
        cases h
        simp [ih hrest]

theorem exceptMap_congr_ok {α β : Type} {f : α → Except Err β} {g : α → β} :
    ∀ {xs : List α}, (∀ x ∈ xs, f x = .ok (g x)) → exceptMap f xs = .ok (xs.map g) := by
  intro xs
  induction xs with
  | nil => intro _; simp [exceptMap]
  | cons x xs ih =>
    intro h
    simp only [exceptMap, h x (by simp), ih (fun y hy => h y (by simp [hy])),
      List.map_cons]

theorem range_map_getD {α β : Type} (l : List α) (d : α) (f : α → β) :
    (List.range l.length).map (fun i => f (l.getD i d)) = l.map f := by
  apply List.ext_getElem
  · simp
  · intro n h₁ h₂
    simp only [List.getElem_map, List.getElem_range]
    rw [List.getD_eq_getElem l d (by simpa using h₂)]

theorem flatten_range_range {α : Type} (n m : Nat) (f : Nat → α) :
    ((List.range n).map (fun i => (List.range m).map (fun j => f (i * m + j)))).flatten
      = (List.range (n * m)).map f := by
  induction n with
  | zero => simp
  | succ n ih =>
    rw [List.range_succ, List.map_append, List.flatten_append, ih, Nat.succ_mul,
      List.range_add, List.map_append]
    simp [List.map_map, Function.comp]

theorem foldl_add_eq_sum (g : ℕ → ℚ) (a : ℚ) (n : ℕ) :
    (List.range n).foldl (fun acc k => acc + g k) a = a + ∑ k ∈ Finset.range n, g k := by
  induction n with
  | zero => simp
  | succ n ih =>
    rw [List.range_succ, List.foldl_append, ih, Finset.sum_range_succ]
    simp [add_assoc]

theorem rowmajor_inj {M i₁ j₁ i₂ j₂ : Int} (hj₁ : 0 ≤ j₁) (hj₁' : j₁ < M)
    (hj₂ : 0 ≤ j₂) (hj₂' : j₂ < M) (h : i₁ * M + j₁ = i₂ * M + j₂) :
    i₁ = i₂ ∧ j₁ = j₂ := by
  have hM : 0 < M := lt_of_le_of_lt hj₁ hj₁'
  have hi : i₁ = i₂ := by
    by_contra hne
    rcases lt_or_gt_of_ne hne with hlt | hgt
    · nlinarith [mul_nonneg (by linarith : (0 : ℤ) ≤ i₂ - i₁ - 1) hM.le]
    · nlinarith [mul_nonneg (by linarith : (0 : ℤ) ≤ i₁ - i₂ - 1) hM.le]
  subst hi
  exact ⟨rfl, by linarith⟩

theorem rowmajor_bound {N M i j : Int} (hi : 0 ≤ i) (hi' : i < N) (hj : 0 ≤ j) (hj' : j < M) :
    0 ≤ i * M + j ∧ i * M + j < N * M := by
  have hM : 0 < M := lt_of_le_of_lt hj hj'
  constructor
  · have := mul_nonneg hi hM.le
    linarith
  · nlinarith [mul_le_mul_of_nonneg_right (by linarith : i + 1 ≤ N) hM.le]

theorem rowmajor_surj {N M k : Int} (hM : 0 < M) (hk : 0 ≤ k) (hk' : k < N * M) :
    0 ≤ k / M ∧ k / M < N ∧ 0 ≤ k % M ∧ k % M < M ∧ (k / M) * M + k % M = k := by
  have h1 := Int.ediv_add_emod k M
  have h3 : 0 ≤ k % M := Int.emod_nonneg k hM.ne'
  have h4 : k % M < M := Int.emod_lt_of_pos k hM
  have h5 : (k / M) * M + k % M = k := by linarith [mul_comm (k / M) M]
  refine ⟨Int.ediv_nonneg hk hM.le, ?_, h3, h4, h5⟩
  by_contra hge
  push_neg at hge
  have h2 : M * N ≤ M * (k / M) := mul_le_mul_of_nonneg_left hge hM.le
  nlinarith [mul_comm N M]

/-! ### C1 -/

/-- C1: for rows, cols ≥ 1, `linearize_scalar_indices` returns `i*cols + j`
when untransposed and `0 ≤ i < rows`, `0 ≤ j < cols`; returns `j*cols + i`
when transposed and `0 ≤ j < rows`, `0 ≤ i < cols`; and fails with the
index-out-of-bounds error in every other case. -/
theorem C1_linearize_scalar (N M : Int) (t : Bool) (i j : Int)
    (hN : 1 ≤ N) (hM : 1 ≤ M) :
    (t = false →
      ((0 ≤ i ∧ i < N ∧ 0 ≤ j ∧ j < M →
          linearize_scalar_indices N M t i j = .ok (i * M + j)) ∧
       (¬(0 ≤ i ∧ i < N ∧ 0 ≤ j ∧ j < M) →
          linearize_scalar_indices N M t i j = .error .indexError))) ∧
    (t = true →
      ((0 ≤ j ∧ j < N ∧ 0 ≤ i ∧ i < M →
          linearize_scalar_indices N M t i j = .ok (j * M + i)) ∧
       (¬(0 ≤ j ∧ j < N ∧ 0 ≤ i ∧ i < M) →
          linearize_scalar_indices N M t i j = .error .indexError))) := by
  cases t
  · refine ⟨fun _ => ⟨fun h => ?_, fun h => ?_⟩, by simp⟩
    · rw [lin_false_eval, if_pos h]
    · rw [lin_false_eval, if_neg h]
  · refine ⟨by simp, fun _ => ⟨fun h => ?_, fun h => ?_⟩⟩
    · rw [lin_true_eval, if_pos h]
    · rw [lin_true_eval, if_neg h]

theorem C1_witness :
    linearize_scalar_indices 2 3 false 1 2 = .ok 5 ∧
    linearize_scalar_indices 2 3 false 2 0 = .error .indexError := by
  constructor
  · have h := ((C1_linearize_scalar 2 3 false 1 2 (by norm_num) (by norm_num)).1 rfl).1
      (by norm_num)
    simpa using h
  · exact ((C1_linearize_scalar 2 3 false 2 0 (by norm_num) (by norm_num)).1 rfl).2
      (by norm_num)

/-! ### C2 -/

/-- In-bounds predicate of `linearize_scalar_indices` for a fixed shape and
transposition flag. -/
def scalarInBounds (N M : Int) (t : Bool) (i j : Int) : Prop :=
  match t with
  | false => 0 ≤ i ∧ i < N ∧ 0 ≤ j ∧ j < M
  | true => 0 ≤ j ∧ j < N ∧ 0 ≤ i ∧ i < M

/-- C2 (counterexample): the claimed transposition-consistency identity
`linearize_scalar(rows, cols, false, i, j) = linearize_scalar(cols, rows, true, j, i)`
fails at rows = 2, cols = 3, i = 1, j = 0: both sides are in bounds and
succeed, but with different offsets (3 versus 2). -/
theorem C2_counterexample :
    linearize_scalar_indices 2 3 false 1 0 = .ok 3 ∧
    linearize_scalar_indices 3 2 true 0 1 = .ok 2 ∧
    ¬ (linearize_scalar_indices 2 3 false 1 0 = linearize_scalar_indices 3 2 true 0 1) := by
  refine ⟨rfl, rfl, fun h => ?_⟩
  rw [lin_false_eval, if_pos (by norm_num), lin_true_eval, if_pos (by norm_num)] at h
  simpa using h

/-- C2 (amended): for every fixed rows, cols ≥ 1 and transposition flag,
`linearize_scalar_indices` restricted to its in-bounds index pairs is a
bijection onto `[0, rows*cols)`; and transposition consistency holds in the
form `linearize_scalar(rows, cols, false, i, j) = linearize_scalar(rows, cols,
true, j, i)` — same shape on both sides, index pair swapped — with the two
sides agreeing as computations, errors included. -/
theorem C2_amended (N M : Int) (t : Bool) (hN : 1 ≤ N) (hM : 1 ≤ M) :
    (∀ i j : Int, scalarInBounds N M t i j →
      ∃ k, linearize_scalar_indices N M t i j = .ok k ∧ 0 ≤ k ∧ k < N * M) ∧
    (∀ i₁ j₁ i₂ j₂ : Int, scalarInBounds N M t i₁ j₁ → scalarInBounds N M t i₂ j₂ →
      linearize_scalar_indices N M t i₁ j₁ = linearize_scalar_indices N M t i₂ j₂ →
      i₁ = i₂ ∧ j₁ = j₂) ∧
    (∀ k : Int, 0 ≤ k → k < N * M →
      ∃ i j, scalarInBounds N M t i j ∧ linearize_scalar_indices N M t i j = .ok k) ∧
    (∀ i j : Int, linearize_scalar_indices N M false i j =
      linearize_scalar_indices N M true j i) := by
  have hM0 : (0 : Int) < M := by linarith
  refine ⟨?_, ?_, ?_, ?_⟩
  · intro i j hb
    cases t with
    | false =>
      obtain ⟨h1, h2, h3, h4⟩ := hb
      exact ⟨i * M + j, by rw [lin_false_eval, if_pos ⟨h1, h2, h3, h4⟩],
        rowmajor_bound h1 h2 h3 h4⟩
    | true =>
      obtain ⟨h1, h2, h3, h4⟩ := hb
      exact ⟨j * M + i, by rw [lin_true_eval, if_pos ⟨h1, h2, h3, h4⟩],
        rowmajor_bound h1 h2 h3 h4⟩
  · intro i₁ j₁ i₂ j₂ hb₁ hb₂ heq
    cases t with
    | false =>
      obtain ⟨a1, a2, a3, a4⟩ := hb₁
      obtain ⟨b1, b2, b3, b4⟩ := hb₂
      rw [lin_false_eval, if_pos ⟨a1, a2, a3, a4⟩,
        lin_false_eval, if_pos ⟨b1, b2, b3, b4⟩] at heq
      exact rowmajor_inj a3 a4 b3 b4 (Except.ok.inj heq)
    | true =>
      obtain ⟨a1, a2, a3, a4⟩ := hb₁
      obtain ⟨b1, b2, b3, b4⟩ := hb₂
      rw [lin_true_eval, if_pos ⟨a1, a2, a3, a4⟩,
        lin_true_eval, if_pos ⟨b1, b2, b3, b4⟩] at heq
      have h := rowmajor_inj a3 a4 b3 b4 (Except.ok.inj heq)
      exact ⟨h.2, h.1⟩
  · intro k hk hk'
    cases t with
    | false =>
      obtain ⟨h1, h2, h3, h4, h5⟩ := rowmajor_surj hM0 hk hk'
      refine ⟨k / M, k % M, ⟨h1, h2, h3, h4⟩, ?_⟩
      rw [lin_false_eval, if_pos ⟨h1, h2, h3, h4⟩, h5]
    | true =>
      obtain ⟨h1, h2, h3, h4, h5⟩ := rowmajor_surj hM0 hk hk'
      refine ⟨k % M, k / M, ⟨h1, h2, h3, h4⟩, ?_⟩
      rw [lin_true_eval, if_pos ⟨h1, h2, h3, h4⟩, h5]
  · intro i j
    rw [lin_false_eval, lin_true_eval]

theorem C2_amended_witness :
    linearize_scalar_indices 2 3 false 0 1 = linearize_scalar_indices 2 3 true 1 0 :=
  (C2_amended 2 3 false (by norm_num) (by norm_num)).2.2.2 0 1



/-! ### C3 -/

/-- C3: evaluation of the embedded `Matrix_TrueDivide` at the failing input.
First conjunct — the scalar-dividend bug: `0 / Matrix((1,1), (1.0,))` raises
`ZeroDivisionError` although the divisor matrix has no zero element, because
the scalar/Matrix branch of the C code tests the scalar DIVIDEND for zero
(the claim and the other two branches require failure exactly when the
divisor is zero). Second conjunct — the behaviour the claim correctly
describes in the Matrix/Matrix branch: `Matrix((1,1), 5) / Matrix((1,1), 0)`
raises `ZeroDivisionError`. -/
theorem C3_divide_bug :
    Matrix_TrueDivide [[(1 : ℚ)]] (.oInt 0) (.oMat ⟨0, 1, 1, false⟩) =
      .error .zeroDivisionError ∧
    Matrix_TrueDivide [[(5 : ℚ)], [(0 : ℚ)]] (.oMat ⟨0, 1, 1, false⟩)
        (.oMat ⟨1, 1, 1, false⟩) = .error .zeroDivisionError := by
  exact ⟨rfl, rfl⟩

/-! ### C4 (counterexample) -/

/-- C4 (counterexample): `Set` is not atomic. On a 1×2 matrix with buffer
`[10, 20]`, assigning the sequence `(1.0, object())` to the full range fails
with a `TypeError` on the second element, but by then the first selected
element has already been overwritten: the buffer is left as `[1, 20]`. -/
theorem C4_counterexample :
    Matrix_SetItem [[(10 : ℚ), 20]] ⟨0, 1, 2, false⟩ (.kSlice sliceFull)
        (.vSeq [.sFloat 1, .sOther]) =
      ([[(1 : ℚ), 20]], some .typeError) ∧
    ¬ ([[(1 : ℚ), 20]] : Heap) = [[(10 : ℚ), 20]] := by
  refine ⟨rfl, by simp⟩

/-! ### C7 -/

/-- C7 (counterexample): construction with shape `(-1, -1)` — both dimensions
negative, hence `rows < 1` — succeeds with a one-element buffer instead of
failing with a `ValueError`: the C guard only rejects `N == 0 || M == 0`, and
the container length check sees `(-1) * (-1) = 1 > 0`. -/
theorem C7_counterexample :
    Matrix_New [] (-1) (-1) none false = .ok ([[(0 : ℚ)]], ⟨0, -1, -1, false⟩) := rfl

/-- Validity of a constructor fill argument for a given buffer size: `None`,
a scalar, or a flat all-numeric sequence of exactly the buffer's length. -/
def validFill : Option FillData → Nat → Prop
  | none, _ => True
  | some (.fInt _), _ => True
  | some (.fFloat _), _ => True
  | some (.fSeq xs), size => xs.length = size ∧ xs.all SeqElem.isNumeric = true
  | some .fOther, _ => False

/-- C7 (amended): construction fails with a `ValueError` whenever a dimension
is zero or exactly one dimension is negative (product < 0); with rows, cols
≥ 1 and a valid fill it succeeds and allocates a fresh buffer of length
rows*cols appended to the heap. (Shapes with both dimensions negative slip
through both guards — see the counterexample.) -/
theorem C7_amended (heap : Heap) (N M : Int) (data : Option FillData) (t : Bool) :
    ((N = 0 ∨ M = 0 ∨ N * M < 0) →
        Matrix_New heap N M data t = .error .valueError) ∧
    (1 ≤ N → 1 ≤ M → validFill data (N * M).toNat →
        ∃ buf, Matrix_New heap N M data t = .ok (heap ++ [buf], ⟨heap.length, N, M, t⟩) ∧
          buf.length = (N * M).toNat) := by
  constructor
  · intro h
    by_cases h0 : N = 0 ∨ M = 0
    · simp [Matrix_New, h0]
    · have hlt : N * M < 0 := by tauto
      simp [Matrix_New, h0, MatrixContainer_NewInternal, le_of_lt hlt]
  · intro hN hM hfill
    have h0 : ¬(N = 0 ∨ M = 0) := by omega
    have hpos : 0 < N * M := mul_pos (by omega) (by omega)
    simp only [Matrix_New, h0, if_false, MatrixContainer_NewInternal,
      not_le.mpr hpos, if_neg (not_le.mpr hpos)]
    match data with
    | none =>
        exact ⟨List.replicate (N * M).toNat 0, rfl, by simp⟩
    | some (.fInt z) =>
        exact ⟨List.replicate (List.replicate (N * M).toNat (0 : ℚ)).length ((z : ℚ)),
          rfl, by simp⟩
    | some (.fFloat q) =>
        exact ⟨List.replicate (List.replicate (N * M).toNat (0 : ℚ)).length q,
          rfl, by simp⟩
    | some (.fSeq xs) =>
        obtain ⟨hlen, hnum⟩ := hfill
        refine ⟨xs.map SeqElem.toQ, ?_, by simp [hlen]⟩
        simp [hlen, hnum]
    | some .fOther => exact hfill.elim

theorem C7_amended_witness :
    ∃ buf, Matrix_New ([] : Heap) 2 2 none false =
        .ok (([] : Heap) ++ [buf], ⟨([] : Heap).length, 2, 2, false⟩) ∧
      buf.length = ((2 : Int) * 2).toNat :=
  (C7_amended [] 2 2 none false).2 (by norm_num) (by norm_num) trivial

/-! ### C8 -/

/-- C8: for matrices of differing logical shapes, the four ordered
comparisons fail with a `ValueError`, while equality returns `false` and
inequality returns `true` without error. -/
theorem C8_compare_shape_mismatch (heap : Heap) (fm sm : Matrix)
    (h : Matrix_SHAPE_I fm ≠ Matrix_SHAPE_I sm ∨ Matrix_SHAPE_J fm ≠ Matrix_SHAPE_J sm) :
    Matrix_LessThan heap fm sm = .error .valueError ∧
    Matrix_LessOrEqual heap fm sm = .error .valueError ∧
    Matrix_GreaterOrEqual heap fm sm = .error .valueError ∧
    Matrix_GreaterThan heap fm sm = .error .valueError ∧
    Matrix_Equal heap fm sm = .ok false ∧
    Matrix_NotEqual heap fm sm = .ok true := by
  have h' : ¬(Matrix_SHAPE_I fm = Matrix_SHAPE_I sm ∧
      Matrix_SHAPE_J fm = Matrix_SHAPE_J sm) := by tauto
  exact ⟨by rw [Matrix_LessThan, if_neg h'], by rw [Matrix_LessOrEqual, if_neg h'],
    by rw [Matrix_GreaterOrEqual, if_neg h'], by rw [Matrix_GreaterThan, if_neg h'],
    by rw [Matrix_Equal, if_neg h'], by rw [Matrix_NotEqual, if_neg h']⟩

theorem C8_witness :
    Matrix_LessThan [] ⟨0, 2, 2, false⟩ ⟨0, 2, 3, false⟩ = .error .valueError ∧
    Matrix_LessOrEqual [] ⟨0, 2, 2, false⟩ ⟨0, 2, 3, false⟩ = .error .valueError ∧
    Matrix_GreaterOrEqual [] ⟨0, 2, 2, false⟩ ⟨0, 2, 3, false⟩ = .error .valueError ∧
    Matrix_GreaterThan [] ⟨0, 2, 2, false⟩ ⟨0, 2, 3, false⟩ = .error .valueError ∧
    Matrix_Equal [] ⟨0, 2, 2, false⟩ ⟨0, 2, 3, false⟩ = .ok false ∧
    Matrix_NotEqual [] ⟨0, 2, 2, false⟩ ⟨0, 2, 3, false⟩ = .ok true :=
  C8_compare_shape_mismatch [] ⟨0, 2, 2, false⟩ ⟨0, 2, 3, false⟩
    (Or.inr (by decide))

/-! ### C9 -/

/-- C9: `m.t` shares `m`'s storage buffer (same container reference, so a
write through either container reference is the same heap update and remains
visible through both views), its logical shape is the swap of `m`'s, and the
double transposition `m.t.t` has `m`'s transposed flag and the very same
shared buffer. -/
theorem C9_transposed_view (m : Matrix) :
    (Matrix_GetTransposed m).container = m.container ∧
    Matrix_SHAPE_I (Matrix_GetTransposed m) = Matrix_SHAPE_J m ∧
    Matrix_SHAPE_J (Matrix_GetTransposed m) = Matrix_SHAPE_I m ∧
    (Matrix_GetTransposed (Matrix_GetTransposed m)).transposed = m.transposed ∧
    (Matrix_GetTransposed (Matrix_GetTransposed m)).container = m.container ∧
    (∀ (heap : Heap) (off : Int) (q : ℚ),
      writeBuf heap (Matrix_GetTransposed m).container off q =
        writeBuf heap m.container off q ∧
      Matrix_DATA (writeBuf heap m.container off q) (Matrix_GetTransposed m) =
        Matrix_DATA (writeBuf heap m.container off q) m) := by
  obtain ⟨c, N, M, t⟩ := m
  cases t <;>
    simp [Matrix_GetTransposed, Matrix_SHAPE_I, Matrix_SHAPE_J, Matrix_DATA]



/-! ### Consistency of `linearize_indices` with `get_sub_shape` -/

theorem exceptMap_ok_mem {α β : Type} {f : α → Except Err β} :
    ∀ {xs : List α} {l : List β}, exceptMap f xs = .ok l →
      ∀ y ∈ l, ∃ x ∈ xs, f x = .ok y := by
  intro xs
  induction xs with
  | nil =>
    intro l h y hy
    simp only [exceptMap] at h
    cases h
    simp at hy
  | cons x xs ih =>
    intro l h y hy
    simp only [exceptMap] at h
    cases hfx : f x with
    | error e => rw [hfx] at h; cases h
    | ok z =>
      rw [hfx] at h
      cases hrest : exceptMap f xs with
      | error e => rw [hrest] at h; cases h
      | ok ys =>
        rw [hrest] at h
        cases h
        rcases List.mem_cons.mp hy with hy | hy
        · exact ⟨x, by simp, by rw [hfx, hy]⟩
        · obtain ⟨w, hw, hfw⟩ := ih hrest y hy
          exact ⟨w, by simp [hw], hfw⟩

theorem flatten_const_length {α : Type} {c : Nat} :
    ∀ {rows : List (List α)}, (∀ r ∈ rows, r.length = c) →
      rows.flatten.length = rows.length * c := by
  intro rows
  induction rows with
  | nil => intro _; simp
  | cons r rs ih =>
    intro h
    simp only [List.flatten_cons, List.length_append, List.length_cons,
      h r (by simp), ih (fun r' hr' => h r' (by simp [hr']))]
    ring

theorem sliceLen_core_nonneg (start stop step : Int) :
    0 ≤ (if step < 0 then
        (if stop < start then (start - stop - 1) / (-step) + 1 else 0)
      else
        (if start < stop then (stop - start - 1) / step + 1 else 0)) := by
  split_ifs with h1 h2 h3
  · have := Int.ediv_nonneg (by omega : (0 : Int) ≤ start - stop - 1)
      (by omega : (0 : Int) ≤ -step)
    omega
  · omega
  · have := Int.ediv_nonneg (by omega : (0 : Int) ≤ stop - start - 1)
      (by omega : (0 : Int) ≤ step)
    omega
  · omega

theorem sliceLen_nonneg {s : Slice} {L st sp len : Int}
    (h : sliceGetIndicesEx s L = .ok (st, sp, len)) : 0 ≤ len := by
  simp only [sliceGetIndicesEx] at h
  rcases Decidable.em (s.step.getD 1 = 0) with h0 | h0
  · rw [if_pos h0] at h
    exact Except.noConfusion h
  · rw [if_neg h0] at h
    simp only [Except.ok.injEq, Prod.mk.injEq] at h
    obtain ⟨-, -, hlen⟩ := h
    rw [← hlen]
    exact sliceLen_core_nonneg _ _ _

/-- The sub-shape returned by `get_sub_shape` counts exactly the offsets
returned by `linearize_indices`: whenever the latter succeeds, the former
succeeds on the same arguments and the offset count equals the product of the
sub-shape components. This is the invariant `Matrix_GetItem` and
`Matrix_SetItem` rely on when they walk `sub_N * sub_M` positions of the
offset tuple. -/
theorem lin_shape_consistent {N M : Int} {t : Bool} {a b : Ax} {l : List Int}
    (h : linearize_indices N M t (a, b) = .ok l) :
    ∃ r c, get_sub_shape N M t (a, b) = .ok (r, c) ∧ (l.length : Int) = r * c := by
  cases a with
  | aInt i =>
    cases b with
    | aInt j =>
      simp only [linearize_indices, li_int_int] at h
      split at h
      · exact Except.noConfusion h
      · cases h
        exact ⟨1, 1, rfl, by simp⟩
    | aTuple jEs =>
      simp only [linearize_indices, li_int_tuple] at h
      have hlen := exceptMap_ok_length h
      exact ⟨1, (jEs.length : Int), rfl, by simp [hlen]⟩
    | aSlice s =>
      simp only [linearize_indices, li_int_slice] at h
      split at h
      · exact Except.noConfusion h
      · rename_i st sp len hs
        have hlen := exceptMap_ok_length h
        have h0 := sliceLen_nonneg hs
        refine ⟨1, len, ?_, ?_⟩
        · simp only [get_sub_shape, hs]
        · simp [hlen, Int.toNat_of_nonneg h0]
    | aOther =>
      simp only [linearize_indices] at h
      exact Except.noConfusion h
  | aTuple iEs =>
    cases b with
    | aInt j =>
      simp only [linearize_indices, li_tuple_int] at h
      have hlen := exceptMap_ok_length h
      exact ⟨(iEs.length : Int), 1, rfl, by simp [hlen]⟩
    | aTuple jEs =>
      simp only [linearize_indices, li_tuple_tuple] at h
      split at h
      · exact Except.noConfusion h
      · rename_i rows hrows
        cases h
        have hrlen := exceptMap_ok_length hrows
        have hconst : ∀ r ∈ rows, r.length = jEs.length := by
          intro r hr
          obtain ⟨ie, _, hie⟩ := exceptMap_ok_mem hrows r hr
          cases ie with
          | tInt iv => exact exceptMap_ok_length hie
          | tOther => exact Except.noConfusion hie
        refine ⟨(iEs.length : Int), (jEs.length : Int), rfl, ?_⟩
        rw [flatten_const_length hconst, hrlen]
        push_cast
        ring
    | aSlice s =>
      simp only [linearize_indices, li_tuple_slice] at h
      split at h
      · exact Except.noConfusion h
      · rename_i st sp len hs
        split at h
        · exact Except.noConfusion h
        · rename_i rows hrows
          cases h
          have hrlen := exceptMap_ok_length hrows
          have h0 := sliceLen_nonneg hs
          have hconst : ∀ r ∈ rows, r.length = len.toNat := by
            intro r hr
            obtain ⟨ie, _, hie⟩ := exceptMap_ok_mem hrows r hr
            cases ie with
            | tInt iv =>
              have hl := exceptMap_ok_length hie
              simpa using hl
            | tOther => exact Except.noConfusion hie
          refine ⟨(iEs.length : Int), len, ?_, ?_⟩
          · simp only [get_sub_shape, hs]
          · rw [flatten_const_length hconst, hrlen]
            push_cast [Int.toNat_of_nonneg h0]
            ring
    | aOther =>
      simp only [linearize_indices] at h
      exact Except.noConfusion h
  | aSlice s =>
    cases b with
    | aInt j =>
      simp only [linearize_indices, li_slice_int] at h
      split at h
      · exact Except.noConfusion h
      · rename_i st sp len hs
        have hlen := exceptMap_ok_length h
        have h0 := sliceLen_nonneg hs
        refine ⟨len, 1, ?_, ?_⟩
        · simp only [get_sub_shape, hs]
        · simp [hlen, Int.toNat_of_nonneg h0]
    | aTuple jEs =>
      simp only [linearize_indices, li_slice_tuple] at h
      split at h
      · exact Except.noConfusion h
      · rename_i st sp len hs
        split at h
        · exact Except.noConfusion h
        · rename_i rows hrows
          cases h
          have hrlen := exceptMap_ok_length hrows
          have h0 := sliceLen_nonneg hs
          have hconst : ∀ r ∈ rows, r.length = jEs.length := by
            intro r hr
            obtain ⟨i_idx, _, hie⟩ := exceptMap_ok_mem hrows r hr
            exact exceptMap_ok_length hie
          refine ⟨len, (jEs.length : Int), ?_, ?_⟩
          · simp only [get_sub_shape, hs]
          · rw [flatten_const_length hconst, hrlen]
            simp only [List.length_range]
            push_cast [Int.toNat_of_nonneg h0]
            ring
    | aSlice sJ =>
      simp only [linearize_indices, li_slice_slice] at h
      split at h
      · exact Except.noConfusion h
      · rename_i i_st i_sp i_len hsI
        split at h
        · exact Except.noConfusion h
        · rename_i j_st j_sp j_len hsJ
          split at h
          · exact Except.noConfusion h
          · rename_i rows hrows
            cases h
            have hrlen := exceptMap_ok_length hrows
            have h0I := sliceLen_nonneg hsI
            have h0J := sliceLen_nonneg hsJ
            have hconst : ∀ r ∈ rows, r.length = j_len.toNat := by
              intro r hr
              obtain ⟨i_idx, _, hie⟩ := exceptMap_ok_mem hrows r hr
              have hl := exceptMap_ok_length hie
              simpa using hl
            refine ⟨i_len, j_len, ?_, ?_⟩
            · simp only [get_sub_shape, hsI, hsJ]
            · rw [flatten_const_length hconst, hrlen]
              simp only [List.length_range]
              push_cast [Int.toNat_of_nonneg h0I, Int.toNat_of_nonneg h0J]
              ring
    | aOther =>
      simp only [linearize_indices] at h
      exact Except.noConfusion h
  | aOther =>
    simp only [linearize_indices] at h
    exact Except.noConfusion h

/-! ### C10 -/

/-- C10: for every shape rows, cols ≥ 1, transposition flag and 2-axis index
descriptor on which `linearize_indices` succeeds, `get_sub_shape` succeeds on
the same arguments and the number of offsets returned equals the product of
the two components of the returned sub-shape — the invariant Get and Set rely
on when they index the offset tuple at `sub_rows * sub_cols` positions. -/
theorem C10_lin_shape_consistent (N M : Int) (t : Bool) (a b : Ax) (l : List Int)
    (hN : 1 ≤ N) (hM : 1 ≤ M)
    (h : linearize_indices N M t (a, b) = .ok l) :
    ∃ r c, get_sub_shape N M t (a, b) = .ok (r, c) ∧ (l.length : Int) = r * c :=
  lin_shape_consistent h

theorem C10_witness :
    ∃ r c, get_sub_shape 3 4 false (.aSlice ⟨some 0, some 2, none⟩, .aSlice sliceFull) =
        .ok (r, c) ∧
      (([0, 1, 2, 3, 4, 5, 6, 7] : List Int).length : Int) = r * c :=
  C10_lin_shape_consistent 3 4 false (.aSlice ⟨some 0, some 2, none⟩) (.aSlice sliceFull)
    [0, 1, 2, 3, 4, 5, 6, 7] (by norm_num) (by norm_num) (by rfl)



/-! ### C4 (amended) -/

theorem seq_write_fold_no_error (self : Matrix) (sub_idx : List Int) (xs : List SeqElem) :
    ∀ (ris : List Nat) (hp : Heap),
      (∀ i ∈ ris, (xs.getD i .sOther).isNumeric = true) →
      (ris.foldl (seqWriteStep self sub_idx xs) (hp, none)).2 = none := by
  intro ris
  induction ris with
  | nil => intro hp _; rfl
  | cons i ris ih =>
    intro hp hnum
    have hi := hnum i (by simp)
    simp only [List.foldl_cons]
    cases hx : xs.getD i .sOther with
    | sOther => rw [hx] at hi; cases hi
    | sInt z =>
      simp only [seqWriteStep, hx]
      exact ih _ (fun i' hi' => hnum i' (by simp [hi']))
    | sFloat q =>
      simp only [seqWriteStep, hx]
      exact ih _ (fun i' hi' => hnum i' (by simp [hi']))


/-- C4 (amended): `Set` leaves the destination buffer unchanged whenever it
fails, for scalar values, Matrix values, non-numeric value objects, and every
error detected before the write loop (invalid key, out-of-bounds index, wrong
sequence length, Matrix shape mismatch). The exception exhibited by the
counterexample is a flat-sequence value containing a non-numeric element: its
type check runs inside the write loop, so the elements before it have already
been written when the `TypeError` is raised. -/
theorem C4_amended (heap : Heap) (self : Matrix) (key : Key) (value : SetValue)
    (h' : Heap) (e : Err)
    (hrun : Matrix_SetItem heap self key value = (h', some e))
    (hnum : ∀ xs, value = .vSeq xs → xs.all SeqElem.isNumeric = true) :
    h' = heap := by
  rw [Matrix_SetItem] at hrun
  split at hrun
  · injection hrun with h1 h2; exact h1.symm
  · split at hrun
    · injection hrun with h1 h2; exact h1.symm
    · split at hrun
      · injection hrun with h1 h2; exact h1.symm
      · rename_i sub_N sub_M hshape x sub_idx hlin
        obtain ⟨P, hP⟩ : ∃ P, sub_N * sub_M = P := ⟨_, rfl⟩
        rw [hP] at hrun
        split at hrun
        · -- Matrix value
          split at hrun
          · injection hrun with h1 h2; exact h1.symm
          · split at hrun
            · injection hrun with h1 h2; exact h1.symm
            · injection hrun with h1 h2; exact Option.noConfusion h2
        · -- sequence value
          rename_i x2 xs
          split at hrun
          · injection hrun with h1 h2; exact h1.symm
          · rename_i hlen
            push_neg at hlen
            have hx := hnum xs rfl
            have hxl : xs.length = P.toNat := by omega
            have hall : ∀ i ∈ List.range P.toNat,
                (xs.getD i .sOther).isNumeric = true := by
              intro i hi
              have hi' : i < xs.length := by
                rw [hxl]
                exact List.mem_range.mp hi
              rw [List.getD_eq_getElem xs .sOther hi']
              exact List.all_eq_true.mp hx _ (List.getElem_mem hi')
            have hz := seq_write_fold_no_error self sub_idx xs
              (List.range P.toNat) heap hall
            rw [hrun] at hz
            exact Option.noConfusion hz
        · injection hrun with h1 h2; exact Option.noConfusion h2
        · injection hrun with h1 h2; exact Option.noConfusion h2
        · injection hrun with h1 h2; exact h1.symm

theorem C4_amended_witness : ([[(10 : ℚ), 20]] : Heap) = [[(10 : ℚ), 20]] :=
  C4_amended [[(10 : ℚ), 20]] ⟨0, 1, 2, false⟩ (.kSlice sliceFull) (.vSeq [.sFloat 5])
    [[(10 : ℚ), 20]] .valueError (by rfl) (fun xs hx => by cases hx; rfl)


/-! ### C6 -/

theorem flatten_rowmajor_getD {α : Type} (n m : Nat) (g : Nat → Nat → α) (d : α)
    (i j : Nat) (hi : i < n) (hj : j < m) :
    ((List.range n).map (fun i' => (List.range m).map (fun j' => g i' j'))).flatten.getD
      (i * m + j) d = g i j := by
  have hm : 0 < m := Nat.pos_of_ne_zero (by omega)
  have hdiv : ∀ i' j' : Nat, j' < m → (i' * m + j') / m = i' := by
    intro i' j' hj'
    rw [Nat.mul_comm i' m, Nat.mul_add_div hm, Nat.div_eq_of_lt hj']
    omega

  have hmod : ∀ i' j' : Nat, j' < m → (i' * m + j') % m = j' := by
    intro i' j' hj'
    rw [Nat.mul_comm i' m, Nat.mul_add_mod]
    exact Nat.mod_eq_of_lt hj'
  have hflat : ((List.range n).map
        (fun i' => (List.range m).map (fun j' => g i' j'))).flatten
      = (List.range (n * m)).map (fun k => g (k / m) (k % m)) := by
    rw [← flatten_range_range n m (fun k => g (k / m) (k % m))]
    congr 1
    apply List.map_congr_left
    intro i' _
    apply List.map_congr_left
    intro j' hj'
    have hj'm : j' < m := List.mem_range.mp hj'
    simp only [hdiv i' j' hj'm, hmod i' j' hj'm]
  have hb : i * m + j < n * m := by
    have h1 : i * m + j < (i + 1) * m := by
      rw [Nat.succ_mul]
      omega
    have h2 : (i + 1) * m ≤ n * m := Nat.mul_le_mul_right m hi
    omega
  rw [hflat, List.getD_eq_getElem _ d (by simpa using hb)]
  simp only [List.getElem_map, List.getElem_range]
  simp only [hdiv i j hj, hmod i j hj]

theorem raw_row_vector (m : Matrix) (h1 : Matrix_SHAPE_I m = 1) (k : Nat)
    (hk : (k : Int) < Matrix_SHAPE_J m) :
    linearize_scalar_raw m.N m.M m.transposed 0 (k : Int) = (k : Int) := by
  rw [Matrix_SHAPE_I] at h1
  rw [Matrix_SHAPE_J] at hk
  cases ht : m.transposed with
  | false =>
    rw [ht] at h1 hk
    simp at h1 hk
    rw [linearize_scalar_raw, lin_false_eval,
      if_pos ⟨le_refl 0, by omega, Int.natCast_nonneg k, hk⟩]
    simp
  | true =>
    rw [ht] at h1 hk
    simp at h1 hk
    rw [linearize_scalar_raw, lin_true_eval,
      if_pos ⟨Int.natCast_nonneg k, hk, le_refl 0, by omega⟩]
    simp [h1]

theorem raw_col_vector (m : Matrix) (h1 : Matrix_SHAPE_J m = 1) (k : Nat)
    (hk : (k : Int) < Matrix_SHAPE_I m) :
    linearize_scalar_raw m.N m.M m.transposed (k : Int) 0 = (k : Int) := by
  rw [Matrix_SHAPE_J] at h1
  rw [Matrix_SHAPE_I] at hk
  cases ht : m.transposed with
  | false =>
    rw [ht] at h1 hk
    simp at h1 hk
    rw [linearize_scalar_raw, lin_false_eval,
      if_pos ⟨Int.natCast_nonneg k, hk, le_refl 0, by omega⟩]
    simp [h1]
  | true =>
    rw [ht] at h1 hk
    simp at h1 hk
    rw [linearize_scalar_raw, lin_true_eval,
      if_pos ⟨le_refl 0, by omega, Int.natCast_nonneg k, hk⟩]
    simp

/-- C6: `A @ B` fails with a `ValueError` unless A's logical column count
equals B's logical row count; when A is logically 1×K and B is logically K×1
the result is a bare scalar equal to the dot product of the two vectors (read
through each operand's transposition-aware scalar linearization), not a 1×1
matrix; otherwise the result is a fresh untransposed M×N matrix whose (i, j)
entry is the standard sum over k of `A[i,k] * B[k,j]`, each factor read
through its operand's transposition-aware scalar linearization. -/
theorem C6_matmul (heap : Heap) (fm sm : Matrix)
    (hfN : 1 ≤ fm.N) (hfM : 1 ≤ fm.M) (hsN : 1 ≤ sm.N) (hsM : 1 ≤ sm.M) :
    (Matrix_SHAPE_J fm ≠ Matrix_SHAPE_I sm →
      Matrix_MatMultiply heap (.oMat fm) (.oMat sm) = .error .valueError) ∧
    (Matrix_SHAPE_J fm = Matrix_SHAPE_I sm →
      ((Matrix_SHAPE_I fm = 1 ∧ Matrix_SHAPE_J sm = 1 →
        Matrix_MatMultiply heap (.oMat fm) (.oMat sm) =
          .ok (heap, .oFloat (∑ k ∈ Finset.range (Matrix_SHAPE_J fm).toNat,
            logicalGet heap fm 0 (k : Int) * logicalGet heap sm (k : Int) 0))) ∧
       (¬(Matrix_SHAPE_I fm = 1 ∧ Matrix_SHAPE_J sm = 1) →
        ∃ buf,
          Matrix_MatMultiply heap (.oMat fm) (.oMat sm) =
            .ok (heap ++ [buf],
              .oMat ⟨heap.length, Matrix_SHAPE_I fm, Matrix_SHAPE_J sm, false⟩) ∧
          buf.length = (Matrix_SHAPE_I fm).toNat * (Matrix_SHAPE_J sm).toNat ∧
          ∀ i j : Nat, i < (Matrix_SHAPE_I fm).toNat → j < (Matrix_SHAPE_J sm).toNat →
            buf.getD (i * (Matrix_SHAPE_J sm).toNat + j) 0 =
              ∑ k ∈ Finset.range (Matrix_SHAPE_J fm).toNat,
                logicalGet heap fm (i : Int) (k : Int) *
                logicalGet heap sm (k : Int) (j : Int)))) := by
  have hI : 1 ≤ Matrix_SHAPE_I fm := by
    rw [Matrix_SHAPE_I]
    split <;> omega
  have hJ : 1 ≤ Matrix_SHAPE_J sm := by
    rw [Matrix_SHAPE_J]
    split <;> omega
  have hK : 1 ≤ Matrix_SHAPE_J fm := by
    rw [Matrix_SHAPE_J]
    split <;> omega
  constructor
  · intro hne
    simp only [Matrix_MatMultiply]
    rw [if_neg hne]
  · intro hmatch
    constructor
    · intro hdeg
      simp only [Matrix_MatMultiply]
      rw [if_pos hmatch, if_pos hdeg]
      have hsum : (List.range (Matrix_SHAPE_J fm).toNat).foldl
          (fun acc k =>
            acc + (Matrix_DATA heap fm).getD k 0 * (Matrix_DATA heap sm).getD k 0)
          0 =
          ∑ k ∈ Finset.range (Matrix_SHAPE_J fm).toNat,
            logicalGet heap fm 0 (k : Int) * logicalGet heap sm (k : Int) 0 := by
        rw [foldl_add_eq_sum, zero_add]
        refine Finset.sum_congr rfl ?_
        intro k hk
        have hkK : (k : Int) < Matrix_SHAPE_J fm := by
          rw [← Int.lt_toNat]
          exact Finset.mem_range.mp hk
        have hkI : (k : Int) < Matrix_SHAPE_I sm := by
          rw [← hmatch]
          exact hkK
        rw [logicalGet, logicalGet, raw_row_vector fm hdeg.1 k hkK,
          raw_col_vector sm hdeg.2 k hkI, Int.toNat_natCast]
      rw [hsum]
    · intro hdeg
      simp only [Matrix_MatMultiply]
      rw [if_pos hmatch, if_neg hdeg]
      have hpos : ¬ (Matrix_SHAPE_I fm * Matrix_SHAPE_J sm ≤ 0) := by
        push_neg
        exact mul_pos (by omega) (by omega)
      rw [MatrixContainer_NewInternal, if_neg hpos]
      refine ⟨_, rfl, ?_, ?_⟩
      · rw [flatten_const_length (c := (Matrix_SHAPE_J sm).toNat) ?_]
        · simp
        · intro r hr
          obtain ⟨i', _, hr'⟩ := List.mem_map.mp hr
          simp [← hr']
      · intro i j hi hj
        rw [flatten_rowmajor_getD _ _ _ _ i j hi hj, foldl_add_eq_sum, zero_add]
        refine Finset.sum_congr rfl ?_
        intro k _
        rw [logicalGet, logicalGet]

theorem C6_witness :
    Matrix_MatMultiply [[1, 2], [3, 4]] (.oMat ⟨0, 1, 2, false⟩) (.oMat ⟨1, 2, 1, false⟩) =
      .ok ([[1, 2], [3, 4]],
        .oFloat (∑ k ∈ Finset.range (Matrix_SHAPE_J (⟨0, 1, 2, false⟩ : Matrix)).toNat,
          logicalGet [[1, 2], [3, 4]] ⟨0, 1, 2, false⟩ 0 (k : Int) *
          logicalGet [[1, 2], [3, 4]] ⟨1, 2, 1, false⟩ (k : Int) 0)) :=
  ((C6_matmul [[1, 2], [3, 4]] ⟨0, 1, 2, false⟩ ⟨1, 2, 1, false⟩
      (by norm_num) (by norm_num) (by norm_num) (by norm_num)).2 (by decide)).1 (by decide)


/-! ### Resolution of the full-range selector -/

theorem sliceFull_resolve (L : Int) (hL : 0 ≤ L) :
    sliceGetIndicesEx sliceFull L = .ok (0, 1, L) := by
  rw [sliceGetIndicesEx]
  simp only [sliceFull, Option.getD_none]
  rw [if_neg (by norm_num : ¬(1 : Int) = 0)]
  have h1 : ¬((1 : Int) < 0) := by norm_num
  rw [if_neg h1, if_neg h1, if_neg h1]
  rcases eq_or_lt_of_le hL with h | h
  · rw [if_neg (by omega), ← h]
  · rw [if_pos h, Int.ediv_one,
      show L - 0 - 1 + 1 = L from by omega]

theorem select_all_false (N M : Int) (hN : 1 ≤ N) (hM : 1 ≤ M) :
    select_all N M false =
      .ok ((List.range (N.toNat * M.toNat)).map (fun (k : Nat) => (k : Int))) := by
  have hMt : ((M.toNat : Int)) = M := Int.toNat_of_nonneg (by omega)
  rw [select_all, linearize_indices, li_slice_slice]
  simp only [Bool.false_eq_true, if_false, sliceFull_resolve N (by omega),
    sliceFull_resolve M (by omega)]
  have hinner : ∀ i' ∈ List.range N.toNat,
      exceptMap (fun (j_idx : Nat) =>
        linearize_scalar_indices N M false
          ((i' : Int) * 1 + 0) ((j_idx : Int) * 1 + 0))
        (List.range M.toNat) =
      .ok ((List.range M.toNat).map (fun j' => ((i' * M.toNat + j' : Nat) : Int))) := by
    intro i' hi'
    apply exceptMap_congr_ok
    intro j' hj'
    have hi'' : (i' : Int) < N := by
      have := List.mem_range.mp hi'
      omega
    have hj'' : (j' : Int) < M := by
      have := List.mem_range.mp hj'
      omega
    rw [lin_false_eval, if_pos ⟨by omega, by omega, by omega, by omega⟩]
    congr 1
    push_cast
    rw [hMt]
    ring
  rw [exceptMap_congr_ok hinner]
  show Except.ok (((List.range N.toNat).map (fun i' => (List.range M.toNat).map
      (fun j' => ((i' * M.toNat + j' : Nat) : Int)))).flatten) = _
  rw [show ((List.range N.toNat).map (fun i' => (List.range M.toNat).map
      (fun j' => ((i' * M.toNat + j' : Nat) : Int)))).flatten
      = (List.range (N.toNat * M.toNat)).map (fun (k : Nat) => (k : Int))
    from flatten_range_range N.toNat M.toNat (fun (k : Nat) => (k : Int))]

/-! ### Behaviour of `Matrix_GetItem` on a resolved selection -/

theorem getitem_cases (heap : Heap) (self : Matrix) (key : Key)
    (idx : Ax × Ax) (l : List Int)
    (hc : complete_indices key = .ok idx)
    (hl : linearize_indices self.N self.M self.transposed idx = .ok l) :
    (l.length = 1 → Matrix_GetItem heap self key =
        .ok (heap, .scalar ((Matrix_DATA heap self).getD ((l.getD 0 0).toNat) 0))) ∧
    (1 < l.length → ∃ r c,
        get_sub_shape self.N self.M self.transposed idx = .ok (r, c) ∧
        Matrix_GetItem heap self key =
          .ok (heap ++ [l.map (fun off => (Matrix_DATA heap self).getD off.toNat 0)],
            .sub ⟨heap.length, r, c, false⟩)) ∧
    (l.length = 0 → Matrix_GetItem heap self key = .error .valueError) := by
  obtain ⟨r, c, hshape, hrc⟩ := lin_shape_consistent hl
  refine ⟨?_, ?_, ?_⟩
  · intro h1
    simp only [Matrix_GetItem, hc, hshape, hl]
    rw [if_neg (by omega), if_pos h1]
  · intro h2
    refine ⟨r, c, hshape, ?_⟩
    simp only [Matrix_GetItem, hc, hshape, hl]
    rw [if_pos h2, ← hrc, MatrixContainer_NewInternal,
      if_neg (by exact_mod_cast (by omega : ¬((l.length : Int) ≤ 0)))]
    simp only [List.length_replicate, Int.toNat_natCast]
    have hbuf : (List.range l.length).map
          (fun i => (Matrix_DATA heap self).getD ((l.getD i 0).toNat) 0) =
        l.map (fun off => (Matrix_DATA heap self).getD off.toNat 0) := by
      have h := range_map_getD l (0 : Int)
        (fun off => (Matrix_DATA heap self).getD off.toNat 0)
      simpa using h
    rw [hbuf]
  · intro h0
    simp only [Matrix_GetItem, hc, hshape, hl]
    rw [if_neg (by omega), if_neg (by omega)]



theorem get_sub_shape_full (N M : Int) (hN : 1 ≤ N) (hM : 1 ≤ M) :
    get_sub_shape N M false (.aSlice sliceFull, .aSlice sliceFull) = .ok (N, M) := by
  simp only [get_sub_shape, Bool.false_eq_true, if_false,
    sliceFull_resolve N (by omega), sliceFull_resolve M (by omega)]

theorem matrix_new_seq_ok {heap0 : Heap} {N M : Int} {d : List ℚ} {h₁ : Heap}
    {m : Matrix} (hN : 1 ≤ N) (hM : 1 ≤ M)
    (hnew : Matrix_New heap0 N M (some (.fSeq (d.map .sFloat))) false = .ok (h₁, m)) :
    h₁ = heap0 ++ [d] ∧ m = ⟨heap0.length, N, M, false⟩ ∧ d.length = (N * M).toNat := by
  rw [Matrix_New, if_neg (by omega : ¬(N = 0 ∨ M = 0)), MatrixContainer_NewInternal,
    if_neg (not_le.mpr (mul_pos (by omega : (0 : Int) < N) (by omega : (0 : Int) < M)))]
    at hnew
  simp only [List.length_map, List.length_replicate] at hnew
  rcases Decidable.em (d.length = (N * M).toNat) with hdl | hdl
  · rw [if_neg (by simp [hdl])] at hnew
    have hall : (d.map SeqElem.sFloat).all SeqElem.isNumeric = true :=
      List.all_eq_true.mpr (fun x hx => by
        obtain ⟨q, -, rfl⟩ := List.mem_map.mp hx
        rfl)
    rw [if_pos hall] at hnew
    rw [Except.ok.injEq, Prod.mk.injEq] at hnew
    obtain ⟨h1eq, h2eq⟩ := hnew
    have hmap : (d.map SeqElem.sFloat).map SeqElem.toQ = d := by
      rw [List.map_map]
      have hco : SeqElem.toQ ∘ SeqElem.sFloat = id := by
        funext q
        rfl
      rw [hco, List.map_id]
    rw [hmap] at h1eq
    exact ⟨h1eq.symm, h2eq.symm, hdl⟩
  · rw [if_pos (by simpa using hdl)] at hnew
    exact Except.noConfusion hnew

/-- C5: for every matrix and valid index descriptor, Get returns a bare
scalar read from the single selected offset when the resolved selection has
exactly one element, a brand-new untransposed Matrix — fresh buffer appended
to the heap, shaped by `get_sub_shape`, holding the selected elements in
linearized order — when it has more than one, and a `ValueError` when it is
empty; and for any matrix built from flat data of matching length, Get with
the full-range descriptor on both axes reconstructs the original data in
row-major order (as that matrix for more than one element, as the bare
element for a 1×1 matrix). -/
theorem C5_getitem_spec (heap : Heap) (self : Matrix) (key : Key)
    (idx : Ax × Ax) (l : List Int)
    (hc : complete_indices key = .ok idx)
    (hl : linearize_indices self.N self.M self.transposed idx = .ok l) :
    ((l.length = 1 → Matrix_GetItem heap self key =
        .ok (heap, .scalar ((Matrix_DATA heap self).getD ((l.getD 0 0).toNat) 0))) ∧
     (1 < l.length → ∃ r c,
        get_sub_shape self.N self.M self.transposed idx = .ok (r, c) ∧
        Matrix_GetItem heap self key =
          .ok (heap ++ [l.map (fun off => (Matrix_DATA heap self).getD off.toNat 0)],
            .sub ⟨heap.length, r, c, false⟩)) ∧
     (l.length = 0 → Matrix_GetItem heap self key = .error .valueError)) ∧
    (∀ (N M : Int) (d : List ℚ) (heap0 h₁ : Heap) (m : Matrix),
      1 ≤ N → 1 ≤ M →
      Matrix_New heap0 N M (some (.fSeq (d.map .sFloat))) false = .ok (h₁, m) →
      ((d.length = 1 →
          Matrix_GetItem h₁ m (.kTuple [.aSlice sliceFull, .aSlice sliceFull]) =
            .ok (h₁, .scalar (d.getD 0 0))) ∧
       (1 < d.length →
          Matrix_GetItem h₁ m (.kTuple [.aSlice sliceFull, .aSlice sliceFull]) =
            .ok (h₁ ++ [d], .sub ⟨h₁.length, N, M, false⟩)))) := by
  refine ⟨getitem_cases heap self key idx l hc hl, ?_⟩
  intro N M d heap0 h₁ m hN hM hnew
  obtain ⟨rfl, rfl, hdl⟩ := matrix_new_seq_ok hN hM hnew
  have hKeq : (N * M).toNat = N.toNat * M.toNat := by
    have h1 : ((N.toNat : Int)) = N := Int.toNat_of_nonneg (by omega)
    have h2 : ((M.toNat : Int)) = M := Int.toNat_of_nonneg (by omega)
    have h3 : N * M = ((N.toNat * M.toNat : Nat) : Int) := by
      push_cast
      rw [h1, h2]
    rw [h3, Int.toNat_natCast]
  have hsel : linearize_indices N M false (.aSlice sliceFull, .aSlice sliceFull) =
      .ok ((List.range (N.toNat * M.toNat)).map (fun (k : Nat) => (k : Int))) := by
    rw [← select_all]
    exact select_all_false N M hN hM
  have hcases := getitem_cases (heap0 ++ [d]) ⟨heap0.length, N, M, false⟩
    (.kTuple [.aSlice sliceFull, .aSlice sliceFull])
    (.aSlice sliceFull, .aSlice sliceFull)
    ((List.range (N.toNat * M.toNat)).map (fun (k : Nat) => (k : Int))) rfl hsel
  have hlstlen : ((List.range (N.toNat * M.toNat)).map (fun (k : Nat) => (k : Int))).length
      = d.length := by
    simp only [List.length_map, List.length_range]
    rw [← hKeq]
    exact hdl.symm
  have hdata : Matrix_DATA (heap0 ++ [d]) (⟨heap0.length, N, M, false⟩ : Matrix) = d := by
    rw [Matrix_DATA]
    rw [List.getD_eq_getElem _ _ (by simp)]
    exact List.getElem_concat_length heap0 d heap0.length rfl _
  constructor
  · intro hd1
    have h := hcases.1 (by omega)
    rw [h]
    have hl0 : ((List.range (N.toNat * M.toNat)).map (fun (k : Nat) => (k : Int))).getD 0 0
        = 0 := by
      rw [List.getD_eq_getElem _ _ (by simp only [List.length_map, List.length_range]; omega)]
      simp
    rw [hdata, hl0]
    norm_num
  · intro hd2
    obtain ⟨r, c, hshape, heq⟩ := hcases.2.1 (by omega)
    have hrc : ((N, M) : Int × Int) = (r, c) :=
      Except.ok.inj ((get_sub_shape_full N M hN hM).symm.trans hshape)
    injection hrc with hr hc2
    subst hr
    subst hc2
    have hmap : ((List.range (N.toNat * M.toNat)).map (fun (k : Nat) => (k : Int))).map
        (fun off => (Matrix_DATA (heap0 ++ [d])
          (⟨heap0.length, N, M, false⟩ : Matrix)).getD off.toNat 0) = d := by
      rw [hdata, List.map_map]
      have hcomp : ((fun off => d.getD off.toNat 0) ∘ (fun (k : Nat) => (k : Int))) =
          (fun (k : Nat) => d.getD k 0) := by
        funext k
        simp
      rw [hcomp]
      have hlen' : N.toNat * M.toNat = d.length := by
        rw [← hKeq]
        exact hdl.symm
      rw [hlen']
      have h := range_map_getD d (0 : ℚ) id
      simpa using h
    rw [heq, hmap]

theorem C5_witness :
    Matrix_GetItem [[1, 2, 3, 4, 5, 6]] ⟨0, 2, 3, false⟩ (.kTuple [.aInt 1, .aInt 2]) =
      .ok ([[1, 2, 3, 4, 5, 6]],
        .scalar ((Matrix_DATA [[1, 2, 3, 4, 5, 6]] ⟨0, 2, 3, false⟩).getD
          ((([5] : List Int).getD 0 0).toNat) 0)) :=
  ((C5_getitem_spec [[1, 2, 3, 4, 5, 6]] ⟨0, 2, 3, false⟩ (.kTuple [.aInt 1, .aInt 2])
      (.aInt 1, .aInt 2) [5] rfl (by rfl)).1).1 rfl


end RS
